import Mathlib

/-!
Verification of the Smart Task Manager (COMP3810SEF group 60).

The repository contains several evolving server variants:
* `Server.js` — bcrypt-hashed credentials, express-validator input checks,
  task list sorted by deadline only, no reorder endpoint;
* `part_000` / `part_001` — plaintext credentials (raw string comparison),
  Google OAuth strategy, task list sorted by `{order: 1, deadline: 1}`,
  drag-and-drop reorder endpoint with an all-or-nothing ownership check,
  and no input validation on task creation or status updates.

This file embeds the data model (`Models/Task.js`, `Models/User.js` variants)
and the route handlers relevant to the claims, and proves or refutes each
claim against them.  MongoDB documents are modelled as Lean structures, a
collection as a `List`, and the Mongo single-document operations
(`findOne`, `findOneAndUpdate`, `findOneAndDelete`, `updateOne`) as
first-match operations on that list (`_id` is unique in a MongoDB
collection, which the well-formedness predicate `wfStore` captures).
JavaScript string falsiness (`""` is falsy) is modelled by `jsOr`, and
JavaScript's `String.prototype.trim` (also mongoose `trim: true`) by
`jsTrim`.  Dates are modelled as integers (`Option Int`: `none` = absent
deadline); MongoDB's ascending sort places documents with a missing field
before any present value (BSON null/missing sorts below dates), which the
comparator `deadlineLe` reflects.
-/

namespace TaskManager

/-- A task document (`Models/Task.js`): title, description,
priority (`low` / `medium` / `high`), status (`pending` / `done`),
optional deadline, drag-and-drop order index (default `0`), owner
reference `userId`, and the automatic mongoose timestamps. -/
structure Task where
  id : Nat
  userId : Nat
  title : String
  description : String
  priority : String
  status : String
  deadline : Option Int
  order : Int
  createdAt : Nat
  updatedAt : Nat
deriving Repr, DecidableEq

/-- A task store is well formed when document ids are pairwise distinct,
as MongoDB guarantees for `_id`. -/
def wfStore (store : List Task) : Prop :=
  (store.map Task.id).Nodup

instance (store : List Task) : Decidable (wfStore store) := by
  unfold wfStore
  infer_instance

/-- JavaScript `a || b` on strings: `""` is falsy. -/
def jsOr (a b : String) : String :=
  if a = "" then b else a

/-- JavaScript `String.prototype.trim` (and mongoose `trim: true`),
modelled on the character list: strip leading and trailing whitespace. -/
def jsTrim (s : String) : String :=
  String.mk (((s.data.dropWhile Char.isWhitespace).reverse.dropWhile
    Char.isWhitespace).reverse)

/-- Update the first element satisfying `p` by `f`, leaving the rest
unchanged: the list-level meaning of MongoDB `findOneAndUpdate` /
`updateOne` on a filtered collection. -/
def updateFirst (p : α → Bool) (f : α → α) : List α → List α
  | [] => []
  | x :: xs => if p x then f x :: xs else x :: updateFirst p f xs

/-- `Task.findOne({ _id: tid, userId: uid })`: the ownership-filtered
lookup every task mutation in the source routes goes through. -/
def findTask (uid tid : Nat) (store : List Task) : Option Task :=
  store.find? (fun t => t.id == tid && t.userId == uid)

/-- Comparator for the `deadline: 1` sort key.  In MongoDB's BSON order
a missing (`null`) value sorts below every date, so ascending order puts
tasks without a deadline first. -/
def deadlineLe : Option Int → Option Int → Bool
  | none, _ => true
  | some _, none => false
  | some a, some b => a ≤ b

/-- Comparator for the `{ order: 1, deadline: 1 }` sort of
`GET /api/tasks` in `part_000` / `part_001`: order ascending, ties broken
by deadline ascending (missing deadline first, per BSON order). -/
def taskLe (t u : Task) : Bool :=
  t.order < u.order || (t.order == u.order && deadlineLe t.deadline u.deadline)

/-- The sort relation used by the `part_000` / `part_001` task list. -/
def taskR (t u : Task) : Prop := taskLe t u = true

instance : DecidableRel taskR := fun t u => by
  unfold taskR; infer_instance

/-- The sort relation of `Server.js`'s `GET /api/tasks`, which sorts by
`{ deadline: 1 }` alone and ignores `order`. -/
def serverTaskR (t u : Task) : Prop := deadlineLe t.deadline u.deadline = true

instance : DecidableRel serverTaskR := fun t u => by
  unfold serverTaskR; infer_instance

/-- `GET /api/tasks` in `part_000` / `part_001`:
`Task.find({ userId }).sort({ order: 1, deadline: 1 })`. -/
def listTasks (uid : Nat) (store : List Task) : List Task :=
  List.insertionSort taskR (store.filter (fun t => t.userId == uid))

/-- `GET /api/tasks` in `Server.js`:
`Task.find({ userId }).sort({ deadline: 1 })`. -/
def serverListTasks (uid : Nat) (store : List Task) : List Task :=
  List.insertionSort serverTaskR (store.filter (fun t => t.userId == uid))

/-- The partial update object built by `PUT /api/tasks/:id`: only fields
present in the request body are written (`deadline: null` clears the
deadline, hence the nested option). -/
structure UpdateData where
  title : Option String := none
  description : Option String := none
  priority : Option String := none
  status : Option String := none
  deadline : Option (Option Int) := none
deriving Repr, DecidableEq

/-- Apply an update object to a document, refreshing `updatedAt`
(mongoose `timestamps: true`). -/
def applyUpdate (u : UpdateData) (now : Nat) (t : Task) : Task :=
  { t with
    title := u.title.getD t.title
    description := u.description.getD t.description
    priority := u.priority.getD t.priority
    status := u.status.getD t.status
    deadline := u.deadline.getD t.deadline
    updatedAt := now }

/-- `PUT /api/tasks/:id` core (shared shape of all variants):
`Task.findOneAndUpdate({ _id: id, userId }, updateData, { new: true })` —
`none` models the `null` result that the route turns into 404 Not Found,
with the store left untouched. -/
def updateFields (uid tid : Nat) (u : UpdateData) (now : Nat)
    (store : List Task) : Option Task × List Task :=
  match findTask uid tid store with
  | none => (none, store)
  | some t =>
    (some (applyUpdate u now t),
     updateFirst (fun x => x.id == tid && x.userId == uid) (applyUpdate u now) store)

/-- Outcome of a status-update request. -/
inductive StatusOutcome where
  | ok (t : Task)
  | notFound
  | validationError
deriving Repr, DecidableEq

/-- Set only the status field (plus the managed `updatedAt`). -/
def setStatus (s : String) (now : Nat) (t : Task) : Task :=
  { t with status := s, updatedAt := now }

/-- `POST /tasks/:id/status` in `Server.js`: express-validator first
checks `status ∈ {pending, done}`, then
`findOneAndUpdate({ _id, userId }, { status })`. -/
def serverUpdateStatus (uid tid : Nat) (status : String) (now : Nat)
    (store : List Task) : StatusOutcome × List Task :=
  if status == "pending" || status == "done" then
    match findTask uid tid store with
    | none => (.notFound, store)
    | some t =>
      (.ok (setStatus status now t),
       updateFirst (fun x => x.id == tid && x.userId == uid) (setStatus status now) store)
  else (.validationError, store)

/-- `POST /tasks/:id/status` in `part_000` / `part_001`: no validation,
the handler writes `{ status: status || "pending" }` verbatim (update
validators are off by default on `findOneAndUpdate`). -/
def part000UpdateStatus (uid tid : Nat) (status? : Option String) (now : Nat)
    (store : List Task) : StatusOutcome × List Task :=
  let s := jsOr (status?.getD "") "pending"
  match findTask uid tid store with
  | none => (.notFound, store)
  | some t =>
    (.ok (setStatus s now t),
     updateFirst (fun x => x.id == tid && x.userId == uid) (setStatus s now) store)

/-- `DELETE /api/tasks/:id` (all variants):
`Task.findOneAndDelete({ _id: id, userId })`; `none` models the 404
branch with the store untouched. -/
def deleteTask (uid tid : Nat) (store : List Task) : Option Task × List Task :=
  match findTask uid tid store with
  | none => (none, store)
  | some t =>
    (some t, store.eraseP (fun x => x.id == tid && x.userId == uid))

/-- Outcome of `POST /api/tasks/reorder`. -/
inductive ReorderOutcome where
  | ok
  | forbidden
deriving Repr, DecidableEq

/-- The ownership query of the reorder route:
`Task.find({ _id: { $in: taskIds }, userId })`. -/
def reorderMatches (uid : Nat) (taskIds : List Nat) (store : List Task) :
    List Task :=
  store.filter (fun t => taskIds.contains t.id && t.userId == uid)

/-- `Task.updateOne({ _id: tid, userId }, { order: ord })`: update the
single matching document (mongoose timestamps also refresh `updatedAt`). -/
def updateOneOrder (uid tid : Nat) (ord : Int) (now : Nat)
    (store : List Task) : List Task :=
  updateFirst (fun t => t.id == tid && t.userId == uid)
    (fun t => { t with order := ord, updatedAt := now }) store

/-- The sequence of `updateOne` calls
`taskIds.map((taskId, index) => Task.updateOne({_id: taskId, userId}, {order: index}))`
applied in order, carrying the running index. -/
def applyReorder (uid now : Nat) : List Nat → Nat → List Task → List Task
  | [], _, store => store
  | tid :: rest, idx, store =>
    applyReorder uid now rest (idx + 1)
      (updateOneOrder uid tid (Int.ofNat idx) now store)

/-- `POST /api/tasks/reorder` (`part_000` / `part_001`): fetch the
caller's tasks matching the submitted ids; if the count differs from the
length of the submitted list respond 403 and mutate nothing, otherwise
assign `order := index` for each id. -/
def reorderOp (uid now : Nat) (taskIds : List Nat) (store : List Task) :
    ReorderOutcome × List Task :=
  if (reorderMatches uid taskIds store).length = taskIds.length then
    (.ok, applyReorder uid now taskIds 0 store)
  else (.forbidden, store)

/-- A user document of the `Server.js` variant (`Models/User.js` with
`passwordHash`): the password is stored as a bcrypt hash. -/
structure SUser where
  id : Nat
  username : String
  passwordHash : String
deriving Repr, DecidableEq

/-- Outcome of the `Server.js` login route. -/
inductive LoginOutcome where
  | success (u : SUser)
  | invalidCredentials
  | validationError
deriving Repr, DecidableEq

/-- The express-validator check on `POST /login`: trimmed username of
3–30 characters, letters, digits and underscore only. -/
def validUsername (username : String) : Bool :=
  let u := jsTrim username
  3 ≤ u.length && u.length ≤ 30 &&
    u.data.all (fun c => c.isAlphanum || c == '_')

/-- `POST /login` in `Server.js`, parameterised by the bcrypt primitives
(`bhash` = `bcrypt.hash(·, 10)`, `bcompare` = `bcrypt.compare`): look the
username up; when no record exists, hash the submitted password, create
a brand-new user and log it in; when a record exists, verify the
password with `bcrypt.compare`. -/
def serverLogin (bhash : String → String) (bcompare : String → String → Bool)
    (username password : String) (users : List SUser) (freshId : Nat) :
    LoginOutcome × List SUser :=
  let uname := jsTrim username
  if validUsername username then
    match users.find? (fun u => u.username == uname) with
    | none =>
      let u : SUser := ⟨freshId, uname, bhash password⟩
      (.success u, users ++ [u])
    | some u =>
      if bcompare password u.passwordHash then (.success u, users)
      else (.invalidCredentials, users)
  else (.validationError, users)

/-- A user document of the `part_000` / `part_001` variants
(`Models/User.js` with plaintext `password`, optional `googleId` and
`displayName`): `""` plays the role of an absent string field, matching
JavaScript falsiness. -/
structure PUser where
  id : Nat
  username : String
  password : String
  googleId : Option String
  displayName : String
deriving Repr, DecidableEq

/-- Outcome of the passport `LocalStrategy` verify callback. -/
inductive LocalOutcome where
  | success (u : PUser)
  | invalidCredentials
  | wrongAuthMethod
deriving Repr, DecidableEq

/-- The credential comparison of the `part_001` `LocalStrategy` (and the
`part_000` login route): the source tests `user.password !== password`,
i.e. plain string equality between the stored secret and the submitted
password. -/
def part001PasswordMatches (stored submitted : String) : Bool :=
  stored == submitted

/-- The passport `LocalStrategy` verify callback of `part_001`: unknown
username fails, an account without a password (Google-only) is told to
use Google, otherwise the submitted password is compared to the stored
one; no user record is ever created here. -/
def localStrategy (username password : String) (users : List PUser) :
    LocalOutcome :=
  match users.find? (fun u => u.username == username) with
  | none => .invalidCredentials
  | some u =>
    if u.password = "" then .wrongAuthMethod
    else if part001PasswordMatches u.password password then .success u
    else .invalidCredentials

/-- Modelled from the spec: section 4.1 demands that every credential
comparison be a constant-time, salted one-way hash verification and
"never raw equality on stored secrets".  `rawStringEquality` is that
forbidden raw comparison, stated in the spec's words so the code's
comparison can be measured against it. -/
def rawStringEquality (stored submitted : String) : Bool :=
  stored == submitted

/-- Modelled from the spec: the required salted one-way hash
verification — recompute the salted hash of the submitted password and
compare it with the stored digest (the stored value is a digest, never
the raw secret). -/
def specHashVerify (hash : String → String → String)
    (salt stored submitted : String) : Bool :=
  stored == hash salt submitted

/-- A verified external-identity profile as delivered by
`passport-google-oauth20`: subject id, e-mail values, display name
(`""` = absent, matching JavaScript falsiness). -/
structure GProfile where
  id : String
  emails : List String
  displayName : String
deriving Repr, DecidableEq

/-- `profile.emails && profile.emails[0] && profile.emails[0].value`. -/
def firstEmail : List String → String
  | [] => ""
  | e :: _ => e

/-- The Google strategy verify callback (`part_000` / `part_001`): look
up by `googleId`; if absent, create a user with
`username = email || displayName || "google_" + id`, empty password,
`googleId` set and `displayName = profile.displayName || username`; if
present, back-fill `displayName` only when it is unset and the profile
carries one.  Nothing else on an existing record is touched. -/
def googleVerify (profile : GProfile) (users : List PUser) (freshId : Nat) :
    PUser × List PUser :=
  match users.find? (fun u => u.googleId == some profile.id) with
  | none =>
    let fallbackUsername :=
      jsOr (firstEmail profile.emails)
        (jsOr profile.displayName ("google_" ++ profile.id))
    let u : PUser :=
      ⟨freshId, fallbackUsername, "", some profile.id,
        jsOr profile.displayName fallbackUsername⟩
    (u, users ++ [u])
  | some u =>
    if u.displayName = "" ∧ profile.displayName ≠ "" then
      ({ u with displayName := profile.displayName },
       updateFirst (fun v => v.googleId == some profile.id)
         (fun v => { v with displayName := profile.displayName }) users)
    else (u, users)

/-- Outcome of a task-creation request. -/
inductive CreateOutcome where
  | ok (t : Task)
  | validationError
deriving Repr, DecidableEq

/-- express-validator on `POST /api/tasks` in `Server.js`:
`body("title").trim().isLength({ min: 1, max: 200 })` — a missing title
fails, as do an empty or over-long trimmed one. -/
def titleValid : Option String → Bool
  | none => false
  | some t => 1 ≤ (jsTrim t).length && (jsTrim t).length ≤ 200

/-- Optional description, at most 2000 characters after trimming. -/
def descriptionValid : Option String → Bool
  | none => true
  | some d => (jsTrim d).length ≤ 2000

/-- Optional priority restricted to the enum. -/
def priorityValid : Option String → Bool
  | none => true
  | some p => p == "low" || p == "medium" || p == "high"

/-- `POST /api/tasks` in `Server.js`: validate, then
`Task.create({title: title.trim(), description, priority || "medium",
deadline, userId})`; on a validation failure nothing is created. -/
def serverCreateTask (uid : Nat) (title? desc? prio? : Option String)
    (deadline? : Option Int) (freshId now : Nat) (store : List Task) :
    CreateOutcome × List Task :=
  if titleValid title? && descriptionValid desc? && priorityValid prio? then
    let t : Task :=
      { id := freshId, userId := uid
        title := jsTrim (title?.getD "")
        description := jsTrim (desc?.getD "")
        priority := jsOr (prio?.getD "") "medium"
        status := "pending", deadline := deadline?, order := 0
        createdAt := now, updatedAt := now }
    (.ok t, store ++ [t])
  else (.validationError, store)

/-- The mongoose document validation that `Task.create` does run in the
unvalidated variants: `title` required (nonempty after schema trim) and
the two enum fields. -/
def mongooseTaskValid (t : Task) : Bool :=
  t.title ≠ "" && priorityValid (some t.priority) &&
    (t.status == "pending" || t.status == "done")

/-- `POST /api/tasks` in `part_000` / `part_001`: no express-validator —
the handler writes `title: (title || "Untitled Task").toString()` (the
schema then trims it), so an absent or empty title silently becomes
"Untitled Task" and no length bound is enforced; only the mongoose
schema checks run. -/
def part000CreateTask (uid : Nat) (title? desc? prio? : Option String)
    (deadline? : Option Int) (freshId now : Nat) (store : List Task) :
    Option Task × List Task :=
  let t : Task :=
    { id := freshId, userId := uid
      title := jsTrim (jsOr (title?.getD "") "Untitled Task")
      description := desc?.getD ""
      priority := jsOr (prio?.getD "") "medium"
      status := "pending", deadline := deadline?, order := 0
      createdAt := now, updatedAt := now }
  if mongooseTaskValid t then (some t, store ++ [t])
  else (none, store)

/-! ### Generic lemmas about `updateFirst` -/

theorem updateFirst_length (p : α → Bool) (f : α → α) :
    ∀ l : List α, (updateFirst p f l).length = l.length
  | [] => rfl
  | x :: xs => by
    by_cases h : p x = true <;>
      simp [updateFirst, h, updateFirst_length p f xs]

theorem updateFirst_getElem?_of_not (p : α → Bool) (f : α → α) :
    ∀ (l : List α) (i : Nat) (x : α), l[i]? = some x → p x = false →
      (updateFirst p f l)[i]? = some x
  | [], i, x, hx, _ => by simp at hx
  | a :: l, 0, x, hx, hpx => by
    simp only [List.getElem?_cons_zero, Option.some.injEq] at hx
    subst hx
    simp [updateFirst, hpx]
  | a :: l, i + 1, x, hx, hpx => by
    simp only [List.getElem?_cons_succ] at hx
    by_cases h : p a = true <;>
      simp [updateFirst, h, hx, updateFirst_getElem?_of_not p f l i x hx hpx]

theorem updateFirst_getElem?_hit (p : α → Bool) (f : α → α) :
    ∀ (l : List α) (i : Nat) (x : α), l[i]? = some x → p x = true →
      (∀ j, j < i → ∀ y, l[j]? = some y → p y = false) →
      (updateFirst p f l)[i]? = some (f x)
  | [], i, x, hx, _, _ => by simp at hx
  | a :: l, 0, x, hx, hpx, _ => by
    simp only [List.getElem?_cons_zero, Option.some.injEq] at hx
    subst hx
    simp [updateFirst, hpx]
  | a :: l, i + 1, x, hx, hpx, hbefore => by
    simp only [List.getElem?_cons_succ] at hx
    have ha : p a = false := hbefore 0 (Nat.succ_pos i) a (by simp)
    have hrec := updateFirst_getElem?_hit p f l i x hx hpx
      (fun j hj y hy => hbefore (j + 1) (Nat.succ_lt_succ hj) y (by simpa using hy))
    simp [updateFirst, ha, hrec]

theorem updateFirst_map (p : α → Bool) (f : α → α) (g : α → β)
    (hf : ∀ x, g (f x) = g x) :
    ∀ l : List α, (updateFirst p f l).map g = l.map g
  | [] => rfl
  | x :: xs => by
    by_cases h : p x = true <;>
      simp [updateFirst, h, hf, updateFirst_map p f g hf xs]

theorem find?_updateFirst (p : α → Bool) (f : α → α)
    (hf : ∀ x, p x = true → p (f x) = true) :
    ∀ (l : List α) (x : α), l.find? p = some x →
      (updateFirst p f l).find? p = some (f x)
  | [], x, hx => by simp at hx
  | a :: l, x, hx => by
    by_cases h : p a = true
    · rw [List.find?_cons_of_pos _ h, Option.some.injEq] at hx
      subst hx
      simp only [updateFirst, h, if_true]
      exact List.find?_cons_of_pos _ (hf a h)
    · rw [List.find?_cons_of_neg _ h] at hx
      have hrec := find?_updateFirst p f hf l x hx
      simp only [updateFirst, if_neg h]
      rw [List.find?_cons_of_neg _ h]
      exact hrec

/-! ### Well-formedness consequences -/

/-- In a well-formed store, two documents at (possibly different)
positions with the same `_id` are at the same position. -/
theorem wf_id_inj {store : List Task} (hwf : wfStore store)
    {j k : Nat} {y t : Task} (hj : store[j]? = some y)
    (hk : store[k]? = some t) (hid : y.id = t.id) : j = k := by
  have hj' : (store.map Task.id)[j]? = some y.id := by
    simp [List.getElem?_map, hj]
  have hk' : (store.map Task.id)[k]? = some t.id := by
    simp [List.getElem?_map, hk]
  have hjlen : j < (store.map Task.id).length := by
    rcases List.getElem?_eq_some.1 hj' with ⟨h, _⟩
    exact h
  exact List.getElem?_inj hjlen hwf (by rw [hj', hk', hid])

/-- In a well-formed store, the same-id injectivity on members. -/
theorem wf_mem_id_inj {store : List Task} (hwf : wfStore store)
    {t u : Task} (ht : t ∈ store) (hu : u ∈ store) (hid : t.id = u.id) :
    t = u :=
  List.inj_on_of_nodup_map hwf ht hu hid

/-- The ownership-filtered lookup misses every task of another owner:
since `_id` is unique, a task owned by someone else can never satisfy
`{ _id: t.id, userId: uid }`. -/
theorem findTask_eq_none_of_other_owner {store : List Task}
    (hwf : wfStore store) {t : Task} (ht : t ∈ store) {uid : Nat}
    (hn : t.userId ≠ uid) : findTask uid t.id store = none := by
  unfold findTask
  rw [List.find?_eq_none]
  intro u hu
  simp only [Bool.and_eq_true, beq_iff_eq, not_and]
  intro hid
  have huv : u = t := wf_mem_id_inj hwf hu ht hid
  rw [huv]
  exact hn

/-! ### The sort comparators are total preorders -/

theorem deadlineLe_total (a b : Option Int) :
    deadlineLe a b = true ∨ deadlineLe b a = true := by
  match a, b with
  | none, _ => left; rfl
  | some x, none => right; rfl
  | some x, some y =>
    simp only [deadlineLe, decide_eq_true_eq]
    exact Int.le_total x y

theorem deadlineLe_trans {a b c : Option Int} (h1 : deadlineLe a b = true)
    (h2 : deadlineLe b c = true) : deadlineLe a c = true := by
  match a, b, c with
  | none, _, _ => rfl
  | some x, none, _ => simp [deadlineLe] at h1
  | some x, some y, none => simp [deadlineLe] at h2
  | some x, some y, some z =>
    simp only [deadlineLe, decide_eq_true_eq] at h1 h2 ⊢
    omega

instance : IsTotal Task taskR := by
  constructor
  intro t u
  unfold taskR taskLe
  rcases Int.lt_trichotomy t.order u.order with h | h | h
  · left; simp [h]
  · rcases deadlineLe_total t.deadline u.deadline with hd | hd
    · left; simp [h, hd]
    · right; simp [h, hd]
  · right; simp [h]

instance : IsTrans Task taskR := by
  constructor
  intro t u v h1 h2
  unfold taskR taskLe at h1 h2 ⊢
  simp only [Bool.or_eq_true, Bool.and_eq_true, decide_eq_true_eq,
    beq_iff_eq] at h1 h2 ⊢
  rcases h1 with h1 | ⟨h1, hd1⟩ <;> rcases h2 with h2 | ⟨h2, hd2⟩
  · left; omega
  · left; omega
  · left; omega
  · right; exact ⟨by omega, deadlineLe_trans hd1 hd2⟩

instance : IsTotal Task serverTaskR := by
  constructor
  intro t u
  exact deadlineLe_total t.deadline u.deadline

instance : IsTrans Task serverTaskR := by
  constructor
  intro t u v h1 h2
  exact deadlineLe_trans h1 h2

/-! ### C1 — ownership isolation -/

/-- C1.  Ownership isolation: a task owned by `p1` is never returned by
`list(p2)` for `p2 ≠ p1`; every task `list(p2)` returns is owned by
`p2`; and `updateFields`, `updateStatus` (both variants) and `delete`
called by `p2` on that task's id answer NotFound and leave the store
untouched — every read, write and delete goes through the
`userId == currentPrincipal.id` filter. -/
theorem ownership_isolation (p1 p2 : Nat) (t : Task) (store : List Task)
    (hwf : wfStore store) (ht : t ∈ store) (hown : t.userId = p1)
    (hne : p1 ≠ p2) :
    t ∉ listTasks p2 store ∧
    (∀ u ∈ listTasks p2 store, u.userId = p2) ∧
    (∀ upd now, updateFields p2 t.id upd now store = (none, store)) ∧
    (∀ s now, s = "pending" ∨ s = "done" →
      serverUpdateStatus p2 t.id s now store = (.notFound, store)) ∧
    (∀ s? now, part000UpdateStatus p2 t.id s? now store = (.notFound, store)) ∧
    deleteTask p2 t.id store = (none, store) := by
  have hmem : ∀ u, u ∈ listTasks p2 store ↔
      u ∈ store.filter (fun x => x.userId == p2) := fun u =>
    (List.perm_insertionSort taskR _).mem_iff
  have howner : ∀ u ∈ listTasks p2 store, u.userId = p2 := by
    intro u hu
    have := List.mem_filter.1 ((hmem u).1 hu)
    simpa using this.2
  have hnone : findTask p2 t.id store = none :=
    findTask_eq_none_of_other_owner hwf ht (by rw [hown]; exact hne)
  refine ⟨?_, howner, ?_, ?_, ?_, ?_⟩
  · intro hmemt
    have := howner t hmemt
    rw [hown] at this
    exact hne this
  · intro upd now
    simp [updateFields, hnone]
  · intro s now hs
    rcases hs with rfl | rfl <;> simp [serverUpdateStatus, hnone]
  · intro s? now
    simp [part000UpdateStatus, hnone]
  · simp [deleteTask, hnone]

/-! ### C4 — list ordering -/

/-- C4 (amended).  Both list endpoints return exactly the principal's
tasks: the `part_000` / `part_001` list is sorted by `order` ascending
with ties broken by `deadline` ascending (a missing deadline sorting
first, per MongoDB's BSON order), and the `Server.js` list is sorted by
`deadline` alone. -/
theorem list_tasks_sorted (uid : Nat) (store : List Task) :
    (listTasks uid store).Sorted taskR ∧
    List.Perm (listTasks uid store) (store.filter (fun t => t.userId == uid)) ∧
    (serverListTasks uid store).Sorted serverTaskR ∧
    List.Perm (serverListTasks uid store)
      (store.filter (fun t => t.userId == uid)) :=
  ⟨List.sorted_insertionSort taskR _, List.perm_insertionSort taskR _,
   List.sorted_insertionSort serverTaskR _,
   List.perm_insertionSort serverTaskR _⟩

/-! ### Reorder lemmas -/

theorem applyReorder_length (uid now : Nat) :
    ∀ (ids : List Nat) (idx : Nat) (store : List Task),
      (applyReorder uid now ids idx store).length = store.length
  | [], _, _ => rfl
  | tid :: rest, idx, store => by
    rw [applyReorder, applyReorder_length uid now rest (idx + 1)]
    exact updateFirst_length _ _ store

/-- Tasks not named in the id list — and tasks of other owners — are
untouched by the whole `updateOne` sequence. -/
theorem applyReorder_frame (uid now : Nat) :
    ∀ (ids : List Nat) (idx : Nat) (store : List Task) (k : Nat) (t : Task),
      store[k]? = some t → (t.id ∉ ids ∨ t.userId ≠ uid) →
      (applyReorder uid now ids idx store)[k]? = some t
  | [], _, _, _, _, hk, _ => hk
  | tid :: rest, idx, store, k, t, hk, hother => by
    have hpt : (t.id == tid && t.userId == uid) = false := by
      rcases hother with h | h
      · simp only [Bool.and_eq_false_iff, beq_eq_false_iff_ne]
        exact Or.inl (fun hc => h (hc ▸ List.mem_cons_self tid rest))
      · simp only [Bool.and_eq_false_iff, beq_eq_false_iff_ne]
        exact Or.inr h
    have hk1 : (updateOneOrder uid tid (Int.ofNat idx) now store)[k]? = some t :=
      updateFirst_getElem?_of_not _ _ store k t hk hpt
    have hother1 : t.id ∉ rest ∨ t.userId ≠ uid := by
      rcases hother with h | h
      · exact Or.inl (fun hc => h (List.mem_cons_of_mem tid hc))
      · exact Or.inr h
    exact applyReorder_frame uid now rest (idx + 1) _ k t hk1 hother1

/-- `updateOne` on the order field does not disturb the map of ids, so
well-formedness survives each step. -/
theorem wfStore_updateOneOrder {store : List Task} (hwf : wfStore store)
    (uid tid : Nat) (ord : Int) (now : Nat) :
    wfStore (updateOneOrder uid tid ord now store) := by
  have h := updateFirst_map (fun t : Task => t.id == tid && t.userId == uid)
    (fun t => { t with order := ord, updatedAt := now }) Task.id
    (fun x => rfl) store
  unfold wfStore updateOneOrder
  rw [h]
  exact hwf

/-- After the `updateOne` sequence, the task carrying the `i`-th id of a
duplicate-free id list has `order = idx + i` and `updatedAt = now`, and
every other field as before. -/
theorem applyReorder_sets (uid now : Nat) :
    ∀ (ids : List Nat) (i idx : Nat) (store : List Task) (tid : Nat)
      (k : Nat) (t : Task),
      ids.Nodup → wfStore store → ids[i]? = some tid →
      store[k]? = some t → t.id = tid → t.userId = uid →
      (applyReorder uid now ids idx store)[k]? =
        some { t with order := Int.ofNat (idx + i), updatedAt := now }
  | [], i, _, _, _, _, _, _, _, hi, _, _, _ => by simp at hi
  | tid0 :: rest, 0, idx, store, tid, k, t, hnd, hwf, hi, hk, hid, huid => by
    simp only [List.getElem?_cons_zero, Option.some.injEq] at hi
    subst hi
    have hpt : (t.id == tid0 && t.userId == uid) = true := by
      simp [hid, huid]
    have hbefore : ∀ j, j < k → ∀ y, store[j]? = some y →
        (y.id == tid0 && y.userId == uid) = false := by
      intro j hj y hy
      by_contra hc
      simp only [Bool.not_eq_false, Bool.and_eq_true, beq_iff_eq] at hc
      exact absurd (wf_id_inj hwf hy hk (by rw [hc.1, hid])) (Nat.ne_of_lt hj)
    have hk1 : (updateOneOrder uid tid0 (Int.ofNat idx) now store)[k]? =
        some { t with order := Int.ofNat idx, updatedAt := now } :=
      updateFirst_getElem?_hit _ _ store k t hk hpt hbefore
    have hnotin : ({ t with order := Int.ofNat idx, updatedAt := now } : Task).id
        ∉ rest ∨
        ({ t with order := Int.ofNat idx, updatedAt := now } : Task).userId ≠ uid :=
      Or.inl (by simpa [hid] using (List.nodup_cons.1 hnd).1)
    have := applyReorder_frame uid now rest (idx + 1) _ k _ hk1 hnotin
    rw [applyReorder, this]
    simp
  | tid0 :: rest, i + 1, idx, store, tid, k, t, hnd, hwf, hi, hk, hid, huid => by
    simp only [List.getElem?_cons_succ] at hi
    have htid : tid ∈ rest := by
      rcases List.getElem?_eq_some.1 hi with ⟨h, hget⟩
      exact hget ▸ List.getElem_mem h
    have hne0 : t.id ≠ tid0 := by
      rw [hid]
      intro hc
      exact (List.nodup_cons.1 hnd).1 (hc ▸ htid)
    have hpt : (t.id == tid0 && t.userId == uid) = false := by
      simp only [Bool.and_eq_false_iff, beq_eq_false_iff_ne]
      exact Or.inl hne0
    have hk1 : (updateOneOrder uid tid0 (Int.ofNat idx) now store)[k]? = some t :=
      updateFirst_getElem?_of_not _ _ store k t hk hpt
    have := applyReorder_sets uid now rest i (idx + 1)
      (updateOneOrder uid tid0 (Int.ofNat idx) now store) tid k t
      (List.nodup_cons.1 hnd).2 (wfStore_updateOneOrder hwf uid tid0 _ now)
      hi hk1 hid huid
    rw [applyReorder, this]
    have harith : idx + 1 + i = idx + (i + 1) := by omega
    rw [harith]

/-- The ids of the matched tasks are duplicate-free and all come from
the submitted list with an owned task behind each. -/
theorem reorderMatches_map_id_nodup {store : List Task} (hwf : wfStore store)
    (uid : Nat) (ids : List Nat) :
    ((reorderMatches uid ids store).map Task.id).Nodup :=
  ((List.filter_sublist store).map Task.id).nodup hwf

theorem contains_true_iff (l : List Nat) (x : Nat) :
    l.contains x = true ↔ x ∈ l := by
  simp [List.contains, List.elem_iff]

theorem mem_reorderMatches_map_id {store : List Task} {uid : Nat}
    {ids : List Nat} {x : Nat} :
    x ∈ (reorderMatches uid ids store).map Task.id ↔
      ∃ t ∈ store, t.id = x ∧ t.userId = uid ∧ x ∈ ids := by
  constructor
  · intro hx
    rcases List.mem_map.1 hx with ⟨t, htf, rfl⟩
    rcases List.mem_filter.1 htf with ⟨ht, hcond⟩
    rw [Bool.and_eq_true, beq_iff_eq] at hcond
    exact ⟨t, ht, rfl, hcond.2, (contains_true_iff _ _).1 hcond.1⟩
  · rintro ⟨t, ht, rfl, huid, hx⟩
    refine List.mem_map.2 ⟨t, List.mem_filter.2 ⟨ht, ?_⟩, rfl⟩
    rw [Bool.and_eq_true, beq_iff_eq]
    exact ⟨(contains_true_iff _ _).2 hx, huid⟩

/-- When the count check of the reorder route passes, the matched ids
are a permutation of the submitted list; in particular the submitted
list is duplicate-free and every submitted id has an owned task. -/
theorem reorder_check_perm {store : List Task} (hwf : wfStore store)
    {uid : Nat} {ids : List Nat}
    (hlen : (reorderMatches uid ids store).length = ids.length) :
    List.Perm ((reorderMatches uid ids store).map Task.id) ids := by
  have hsub : (reorderMatches uid ids store).map Task.id ⊆ ids := by
    intro x hx
    obtain ⟨t, ht, rfl, huid, hmem⟩ := mem_reorderMatches_map_id.1 hx
    exact hmem
  have hsp := List.subperm_of_subset (reorderMatches_map_id_nodup hwf uid ids)
    hsub
  exact hsp.perm_of_length_le (by rw [List.length_map]; omega)

/-! ### C2, C9, C10 — the reorder endpoint -/

/-- C2.  Reorder is all-or-nothing.  When the route's pre-mutation check
holds — the set of the principal's tasks matching the submitted ids has
the same cardinality as the submitted list — the operation succeeds,
every submitted id indeed names a task owned by the principal, and the
task carrying the `i`-th id ends with `order = i` (all its other fields
except the managed `updatedAt` untouched).  When some submitted id does
not name a task owned by the principal, the whole operation answers
Forbidden and the store is returned exactly as it was: no task's order
changes. -/
theorem reorder_all_or_nothing (uid now : Nat) (ids : List Nat)
    (store : List Task) (hwf : wfStore store) :
    ((reorderMatches uid ids store).length = ids.length →
      (reorderOp uid now ids store).1 = .ok ∧
      (∀ tid ∈ ids, ∃ t ∈ store, t.id = tid ∧ t.userId = uid) ∧
      (∀ i tid, ids[i]? = some tid → ∀ (k : Nat) (t : Task), store[k]? = some t →
        t.id = tid → t.userId = uid →
        (reorderOp uid now ids store).2[k]? =
          some { t with order := Int.ofNat i, updatedAt := now })) ∧
    ((∃ tid ∈ ids, ¬ ∃ t ∈ store, t.id = tid ∧ t.userId = uid) →
      reorderOp uid now ids store = (.forbidden, store)) := by
  constructor
  · intro hlen
    have hperm := reorder_check_perm hwf hlen
    have hnodup : ids.Nodup :=
      hperm.nodup_iff.1 (reorderMatches_map_id_nodup hwf uid ids)
    have hop : reorderOp uid now ids store =
        (.ok, applyReorder uid now ids 0 store) := by
      unfold reorderOp
      rw [if_pos hlen]
    refine ⟨by rw [hop], ?_, ?_⟩
    · intro tid htid
      have hmem : tid ∈ (reorderMatches uid ids store).map Task.id :=
        hperm.mem_iff.2 htid
      obtain ⟨t, ht, hid, huid, _⟩ := mem_reorderMatches_map_id.1 hmem
      exact ⟨t, ht, hid, huid⟩
    · intro i tid hi k t hk hid huid
      rw [hop]
      have := applyReorder_sets uid now ids i 0 store tid k t hnodup hwf
        hi hk hid huid
      simpa using this
  · rintro ⟨tid, htid, hnone⟩
    have hne : (reorderMatches uid ids store).length ≠ ids.length := by
      intro hlen
      have hperm := reorder_check_perm hwf hlen
      have hmem : tid ∈ (reorderMatches uid ids store).map Task.id :=
        hperm.mem_iff.2 htid
      obtain ⟨t, ht, hid, huid, _⟩ := mem_reorderMatches_map_id.1 hmem
      exact hnone ⟨t, ht, hid, huid⟩
    unfold reorderOp
    rw [if_neg hne]

/-- C9.  A reorder request whose id list contains duplicates is rejected
with Forbidden and mutates nothing, because the matched owned tasks are
pairwise-distinct documents and therefore fewer than the entries of the
list — even when every listed id names a task owned by the principal. -/
theorem reorder_rejects_duplicate_ids (uid now : Nat) (ids : List Nat)
    (store : List Task) (hwf : wfStore store) (hdup : ¬ ids.Nodup) :
    reorderOp uid now ids store = (.forbidden, store) := by
  have hlt : (reorderMatches uid ids store).length < ids.length := by
    have hnd := reorderMatches_map_id_nodup hwf uid ids
    have hsub : (reorderMatches uid ids store).map Task.id ⊆ ids.dedup := by
      intro x hx
      obtain ⟨t, ht, rfl, huid, hmem⟩ := mem_reorderMatches_map_id.1 hx
      exact List.mem_dedup.2 hmem
    have h1 := (List.subperm_of_subset hnd hsub).length_le
    have h2 : ids.dedup.length < ids.length := by
      rcases Nat.lt_or_ge ids.dedup.length ids.length with h | h
      · exact h
      · have hsl := List.dedup_sublist ids
        have heq : ids.dedup = ids :=
          hsl.eq_of_length (Nat.le_antisymm hsl.length_le h)
        exact absurd (heq ▸ List.nodup_dedup ids) hdup
    rw [List.length_map] at h1
    omega
  unfold reorderOp
  rw [if_neg (Nat.ne_of_lt hlt)]

/-- C10.  A successful reorder mutates only the tasks named in the id
list: a task at any position whose id is not listed — or which belongs
to another principal — is returned bit-for-bit unchanged, and the store
keeps its length. -/
theorem reorder_mutates_only_listed (uid now : Nat) (ids : List Nat)
    (store : List Task) (k : Nat) (t : Task)
    (hok : (reorderOp uid now ids store).1 = .ok)
    (hk : store[k]? = some t) (hother : t.id ∉ ids ∨ t.userId ≠ uid) :
    (reorderOp uid now ids store).2[k]? = some t ∧
    (reorderOp uid now ids store).2.length = store.length := by
  unfold reorderOp at hok ⊢
  by_cases hlen : (reorderMatches uid ids store).length = ids.length
  · rw [if_pos hlen]
    exact ⟨applyReorder_frame uid now ids 0 store k t hk hother,
      applyReorder_length uid now ids 0 store⟩
  · rw [if_neg hlen] at hok
    simp at hok

/-! ### C8 — status updates -/

/-- C8 (amended).  The status update writes only `status` (plus the
managed `updatedAt`): toggling an owned task to `done` and back to
`pending` through the `Server.js` route returns it with every other
field — title, description, priority, deadline, order, owner,
`createdAt` — exactly as before.  The `Server.js` route validates
`status ∈ {pending, done}` and rejects anything else without touching
the store, while the `part_000` / `part_001` route performs no
validation: it writes any nonempty submitted string verbatim and only
substitutes `pending` for an absent value. -/
theorem update_status_frame (uid tid : Nat) (store : List Task) (t : Task)
    (n1 n2 : Nat) (h : findTask uid tid store = some t) :
    (findTask uid tid (serverUpdateStatus uid tid "done" n1 store).2 =
       some { t with status := "done", updatedAt := n1 } ∧
     findTask uid tid
         (serverUpdateStatus uid tid "pending" n2
           (serverUpdateStatus uid tid "done" n1 store).2).2 =
       some { t with status := "pending", updatedAt := n2 }) ∧
    (∀ s, s ≠ "pending" → s ≠ "done" →
      serverUpdateStatus uid tid s n1 store = (.validationError, store)) ∧
    (∀ s now, s ≠ "" →
      (part000UpdateStatus uid tid (some s) now store).1 =
        .ok { t with status := s, updatedAt := now }) := by
  have hpres : ∀ s now (x : Task), (x.id == tid && x.userId == uid) = true →
      ((setStatus s now x).id == tid && (setStatus s now x).userId == uid)
        = true := by
    intro s now x hx
    simpa [setStatus] using hx
  have h1 : findTask uid tid (serverUpdateStatus uid tid "done" n1 store).2 =
      some (setStatus "done" n1 t) := by
    unfold serverUpdateStatus
    rw [if_pos (by decide)]
    rw [h]
    exact find?_updateFirst _ _ (hpres "done" n1) store t h
  have h2 : findTask uid tid
      (serverUpdateStatus uid tid "pending" n2
        (serverUpdateStatus uid tid "done" n1 store).2).2 =
      some (setStatus "pending" n2 (setStatus "done" n1 t)) := by
    unfold serverUpdateStatus
    rw [if_pos (by decide), if_pos (by decide)]
    rw [h]
    have hfind1 := h1
    unfold serverUpdateStatus at hfind1
    rw [if_pos (by decide), h] at hfind1
    rw [hfind1]
    exact find?_updateFirst _ _ (hpres "pending" n2) _ _ hfind1
  refine ⟨⟨h1, h2⟩, ?_, ?_⟩
  · intro s hs1 hs2
    unfold serverUpdateStatus
    rw [if_neg (by simp [hs1, hs2])]
  · intro s now hs
    unfold part000UpdateStatus
    simp only [Option.getD_some, jsOr, if_neg hs]
    rw [h]
    simp [setStatus]

/-! ### C6 — external-identity login -/

/-- C6 (amended).  External-identity login with a profile whose subject
id matches no record creates a user with no password credential (`""`)
and the external reference set; its display name is the profile's name
or, when the profile carries none, the profile's first e-mail when
present and otherwise the deterministic string `"google_" + subjectId`.
When a record matches, no password field of any user changes, nothing at
all changes unless the stored display name is unset, and then only the
display name is back-filled from the profile. -/
theorem google_verify_behaviour (p : GProfile) (users : List PUser)
    (fid : Nat) :
    (users.find? (fun u => u.googleId == some p.id) = none →
      (googleVerify p users fid).1.password = "" ∧
      (googleVerify p users fid).1.googleId = some p.id ∧
      (googleVerify p users fid).1.displayName =
        jsOr p.displayName (jsOr (firstEmail p.emails) ("google_" ++ p.id)) ∧
      (googleVerify p users fid).2 = users ++ [(googleVerify p users fid).1]) ∧
    (∀ u, users.find? (fun v => v.googleId == some p.id) = some u →
      (googleVerify p users fid).2.map PUser.password =
        users.map PUser.password ∧
      (u.displayName ≠ "" → googleVerify p users fid = (u, users)) ∧
      (u.displayName = "" → p.displayName ≠ "" →
        (googleVerify p users fid).1 = { u with displayName := p.displayName })) := by
  constructor
  · intro hn
    unfold googleVerify
    rw [hn]
    refine ⟨rfl, rfl, ?_, rfl⟩
    by_cases hd : p.displayName = "" <;> simp [jsOr, hd]
  · intro u hu
    unfold googleVerify
    rw [hu]
    dsimp only
    by_cases hd : u.displayName = "" ∧ p.displayName ≠ ""
    · rw [if_pos hd]
      refine ⟨?_, ?_, fun _ _ => rfl⟩
      · exact updateFirst_map (fun v : PUser => v.googleId == some p.id)
          (fun v => { v with displayName := p.displayName }) PUser.password
          (fun x => rfl) users
      · intro hdn
        exact absurd hd.1 hdn
    · rw [if_neg hd]
      exact ⟨rfl, fun _ => rfl, fun h1 h2 => absurd ⟨h1, h2⟩ hd⟩

/-! ### C7 — title validation on task creation -/

/-- C7 (amended).  In the `Server.js` variant task creation validates
the title: an absent, empty (after trimming) or longer-than-200
character title fails with a validation error and creates nothing.  The
`part_000` / `part_001` variant performs no such validation: an absent
title is silently replaced by "Untitled Task" and an over-long title is
stored as submitted, a task being created in both cases. -/
theorem create_title_validation (uid : Nat) (desc? prio? : Option String)
    (dl? : Option Int) (fid now : Nat) (store : List Task) :
    (∀ title?, titleValid title? = false →
      serverCreateTask uid title? desc? prio? dl? fid now store =
        (.validationError, store)) ∧
    (serverCreateTask uid none desc? prio? dl? fid now store =
      (.validationError, store)) ∧
    (∀ t, jsTrim t = "" →
      serverCreateTask uid (some t) desc? prio? dl? fid now store =
        (.validationError, store)) ∧
    (∀ t, 200 < (jsTrim t).length →
      serverCreateTask uid (some t) desc? prio? dl? fid now store =
        (.validationError, store)) ∧
    (∀ d, part000CreateTask uid none (some d) none dl? fid now store =
      (some ⟨fid, uid, "Untitled Task", d, "medium", "pending", dl?, 0, now, now⟩,
       store ++
         [⟨fid, uid, "Untitled Task", d, "medium", "pending", dl?, 0, now, now⟩])) ∧
    (∀ s, 200 < (jsTrim s).length →
      part000CreateTask uid (some s) none none dl? fid now store =
      (some ⟨fid, uid, jsTrim s, "", "medium", "pending", dl?, 0, now, now⟩,
       store ++
         [⟨fid, uid, jsTrim s, "", "medium", "pending", dl?, 0, now, now⟩])) := by
  have hmain : ∀ title?, titleValid title? = false →
      serverCreateTask uid title? desc? prio? dl? fid now store =
        (.validationError, store) := by
    intro title? h
    unfold serverCreateTask
    rw [h]
    simp
  refine ⟨hmain, hmain none rfl, ?_, ?_, ?_, ?_⟩
  · intro t ht
    exact hmain (some t) (by simp [titleValid, ht])
  · intro t ht
    refine hmain (some t) ?_
    simp only [titleValid, Bool.and_eq_false_iff]
    right
    simp only [decide_eq_false_iff_not]
    omega
  · intro d
    rfl
  · intro s hs
    have hsne : s ≠ "" := by
      intro hc
      rw [hc] at hs
      simp [jsTrim] at hs
    have htne : jsTrim s ≠ "" := by
      intro hc
      rw [hc] at hs
      simp at hs
    unfold part000CreateTask
    simp only [Option.getD_some, Option.getD_none]
    rw [show jsOr s "Untitled Task" = s from if_neg hsne]
    rw [show jsOr "" "medium" = "medium" from rfl]
    have hval : mongooseTaskValid
        ⟨fid, uid, jsTrim s, "", "medium", "pending", dl?, 0, now, now⟩
          = true := by
      simp [mongooseTaskValid, priorityValid, htne]
    rw [hval]
    simp

/-! ### Concrete documents used to evaluate the operations -/

/-- A task of user 1 with a deadline. -/
def taskA : Task := ⟨1, 1, "A", "", "medium", "pending", some 5, 0, 0, 0⟩

/-- A task of user 1 without a deadline, same order as `taskA`. -/
def taskB : Task := ⟨2, 1, "B", "", "medium", "pending", none, 0, 0, 0⟩

/-- A task of user 2. -/
def taskC : Task := ⟨3, 2, "C", "", "medium", "pending", some 1, 0, 0, 0⟩

/-- A task of user 1 with order 1 and the earlier deadline. -/
def taskD : Task := ⟨4, 1, "D", "", "medium", "pending", some 5, 1, 0, 0⟩

/-- A task of user 1 with order 0 and the later deadline. -/
def taskE : Task := ⟨5, 1, "E", "", "medium", "pending", some 10, 0, 0, 0⟩

/-- A concrete stand-in for `bcrypt.hash(·, 10)`. -/
def demoHashFn : String → String := fun p => "$2b$10$" ++ p

/-- The matching stand-in for `bcrypt.compare`. -/
def demoCompareFn : String → String → Bool := fun p h => h == demoHashFn p

/-- A password account of the plaintext variants, credentials straight
from the repository's demo guide. -/
def demoUser : PUser := ⟨1, "demo_user", "demo123", none, "demo_user"⟩

/-- A concrete salted one-way hash for `specHashVerify`. -/
def demoSaltedHash : String → String → String :=
  fun salt p => "$2b$10$" ++ salt ++ p

/-- A Google-linked account with an unset display name. -/
def gUser : PUser := ⟨2, "g@x.y", "", some "9", ""⟩

/-- A 201-character title. -/
def longTitle : String := String.mk (List.replicate 201 'a')

/-! ### C3 — login must not auto-create accounts -/

/-- C3.  The `Server.js` login evaluated at a username with no user
record: instead of failing with invalid credentials, it hashes the
submitted password, creates a brand-new user record and logs it in —
while the `part_001` `LocalStrategy` at the same input fails with
invalid credentials and creates nothing, as the claim demands. -/
theorem server_login_autocreates_user :
    serverLogin demoHashFn demoCompareFn "ghost" "pw" [] 7 =
      (.success ⟨7, "ghost", "$2b$10$pw"⟩, [⟨7, "ghost", "$2b$10$pw"⟩]) ∧
    localStrategy "ghost" "pw" [] = .invalidCredentials := by
  decide

/-! ### C5 — credential comparison -/

/-- C5.  The credential comparison of the `part_000` / `part_001`
variants is, as a function, exactly raw string equality on the stored
secret — not a hash verification: the stored plaintext itself is
accepted as the password, whereas a salted one-way hash verification of
the same submission against the same stored value rejects it. -/
theorem password_comparison_is_raw_equality :
    part001PasswordMatches = rawStringEquality ∧
    localStrategy "demo_user" "demo123" [demoUser] = .success demoUser ∧
    localStrategy "demo_user" "wrong" [demoUser] = .invalidCredentials ∧
    specHashVerify demoSaltedHash "s" demoUser.password "demo123" = false := by
  exact ⟨rfl, by decide, by decide, by decide⟩

/-! ### Counterexamples -/

/-- C4 counterexample.  Two equal-order tasks of user 1: the one with
no deadline is listed first, not last; and the `Server.js` list ignores
`order` entirely, returning the order-1 task before the order-0 one. -/
theorem list_sorted_counterexample :
    listTasks 1 [taskA, taskB] = [taskB, taskA] ∧
    taskB.deadline = none ∧ taskA.deadline = some 5 ∧
    taskB.order = taskA.order ∧
    serverListTasks 1 [taskE, taskD] = [taskD, taskE] ∧
    taskE.order < taskD.order ∧ taskE.userId = taskD.userId := by
  decide

/-- C6 counterexample.  A profile with no display name and no e-mail
gets the fallback `"google_" + subjectId`, not `"extid_" + subjectId`;
and when an e-mail is present it takes precedence over the subject-id
fallback. -/
theorem google_fallback_counterexample :
    (googleVerify ⟨"123", [], ""⟩ [] 5).1.displayName = "google_123" ∧
    "google_123" ≠ "extid_" ++ "123" ∧
    (googleVerify ⟨"123", ["a@b.c"], ""⟩ [] 6).1.displayName = "a@b.c" := by
  decide

/-- C7 counterexample.  A `part_000` create call with an absent title
does not fail: it creates a task titled "Untitled Task". -/
theorem create_untitled_counterexample :
    part000CreateTask 1 none none none none 4 0 [] =
      (some ⟨4, 1, "Untitled Task", "", "medium", "pending", none, 0, 0, 0⟩,
       [⟨4, 1, "Untitled Task", "", "medium", "pending", none, 0, 0, 0⟩]) := by
  decide

/-- C8 counterexample.  The `part_000` status route accepts the string
"bogus", which is neither `pending` nor `done`, and writes it to the
task: status is not validated in that variant. -/
theorem status_not_validated_counterexample :
    (part000UpdateStatus 1 1 (some "bogus") 5 [taskA]).1 =
      .ok { taskA with status := "bogus", updatedAt := 5 } ∧
    "bogus" ≠ "pending" ∧ "bogus" ≠ "done" := by
  decide

/-! ### Witnesses -/

/-- C1 witness: user 2 can neither see nor delete user 1's `taskA`. -/
theorem ownership_isolation_witness :
    taskA ∉ listTasks 2 [taskA, taskC] ∧
    deleteTask 2 taskA.id [taskA, taskC] = (none, [taskA, taskC]) := by
  have h := ownership_isolation 1 2 taskA [taskA, taskC]
    (by decide) (by decide) (by decide) (by decide)
  exact ⟨h.1, h.2.2.2.2.2⟩

/-- C2 witness: reorder of `[2, 1]` by their owner succeeds, and a
request naming another user's task is rejected with the store intact. -/
theorem reorder_all_or_nothing_witness :
    (reorderOp 1 9 [2, 1] [taskA, taskB, taskC]).1 = .ok ∧
    reorderOp 1 9 [3] [taskA, taskB, taskC] =
      (.forbidden, [taskA, taskB, taskC]) := by
  have h := reorder_all_or_nothing 1 9 [2, 1] [taskA, taskB, taskC] (by decide)
  have h2 := reorder_all_or_nothing 1 9 [3] [taskA, taskB, taskC] (by decide)
  exact ⟨(h.1 (by decide)).1, h2.2 (by decide)⟩

/-- C9 witness: the duplicate list `[1, 1]` is rejected even though
task 1 belongs to the caller. -/
theorem reorder_rejects_duplicate_ids_witness :
    reorderOp 1 9 [1, 1] [taskA, taskB, taskC] =
      (.forbidden, [taskA, taskB, taskC]) :=
  reorder_rejects_duplicate_ids 1 9 [1, 1] [taskA, taskB, taskC]
    (by decide) (by decide)

/-- C10 witness: after user 1 reorders `[2, 1]`, user 2's `taskC` at
position 2 is untouched and the store length is unchanged. -/
theorem reorder_mutates_only_listed_witness :
    (reorderOp 1 9 [2, 1] [taskA, taskB, taskC]).2[2]? = some taskC ∧
    (reorderOp 1 9 [2, 1] [taskA, taskB, taskC]).2.length =
      [taskA, taskB, taskC].length := by
  have h := reorder_mutates_only_listed 1 9 [2, 1] [taskA, taskB, taskC] 2 taskC
    (by decide) (by decide) (by decide)
  exact ⟨h.1, h.2⟩

/-- C6 witness: creation sets the external reference, and an existing
record with unset display name is back-filled from the profile. -/
theorem google_verify_behaviour_witness :
    (googleVerify ⟨"9", [], "Zed"⟩ [] 3).1.googleId = some "9" ∧
    (googleVerify ⟨"9", [], "Zed"⟩ [gUser] 3).1 =
      { gUser with displayName := "Zed" } := by
  have h1 := (google_verify_behaviour ⟨"9", [], "Zed"⟩ [] 3).1 (by decide)
  have h2 := (google_verify_behaviour ⟨"9", [], "Zed"⟩ [gUser] 3).2 gUser
    (by decide)
  exact ⟨h1.2.1, h2.2.2 (by decide) (by decide)⟩

set_option maxRecDepth 10000 in
/-- C7 witness: `Server.js` rejects both an absent title and a
201-character one without creating anything. -/
theorem create_title_validation_witness :
    serverCreateTask 1 none none none none 4 0 [] = (.validationError, []) ∧
    serverCreateTask 1 (some longTitle) none none none 4 0 [] =
      (.validationError, []) := by
  have h := create_title_validation 1 none none none 4 0 []
  exact ⟨h.2.1, h.2.2.2.1 longTitle (by decide)⟩

/-- C8 witness: marking `taskA` done changes only status and
`updatedAt`, and an invalid status string is rejected by `Server.js`. -/
theorem update_status_frame_witness :
    findTask 1 1 (serverUpdateStatus 1 1 "done" 5 [taskA]).2 =
      some { taskA with status := "done", updatedAt := 5 } ∧
    serverUpdateStatus 1 1 "zzz" 5 [taskA] = (.validationError, [taskA]) := by
  have h := update_status_frame 1 1 [taskA] taskA 5 6 (by decide)
  exact ⟨h.1.1, h.2.1 "zzz" (by decide) (by decide)⟩

end TaskManager
